import Mathlib

/-!
Shallow embedding of the data pipeline of the openplanetdata.com download
page.  The page has two variants of the same logic:

* variant A (the OSM effect of the richer page): fetches an array-shaped
  manifest (`planet.metadata`), builds each record's URL from a template,
  coerces string sizes with `parseInt`, enriches every record with the
  first space-delimited token of the `<url>.sha256` body (falling back to
  the sentinel "N/A" when the fetch rejects), and finally sorts the
  enriched records by file extension;

* variant B (`src/app/page.tsx`): fetches an object-shaped manifest
  (`metadata.json`, category → array of entries), spreads each entry into
  a record (no size coercion), enriches identically, and publishes the
  records without sorting.

JavaScript strings are modelled as Lean `String`s (operating on their
character lists where the JS code indexes or slices), JSON numbers as
`Int`, the `fetch` network layer as an oracle from URL to outcome, and
the React state updates as explicit state passing.
-/

namespace OpenPlanetData

/-- Result of a `fetch(url).then(r => r.text())` step: either the promise
rejected (network error) or a response arrived with some HTTP status and
body text.  `fetch` resolves for every HTTP status; the page code never
inspects the status, which the model keeps to make that visible. -/
inductive FetchResult where
  | err : FetchResult
  | ok (status : Nat) (body : String) : FetchResult
deriving DecidableEq, Repr

/-- A network oracle: what the checksum fetch returns for each URL. -/
def FetchOracle : Type := String → FetchResult

/-- Embedding of JS `String.prototype.split` with a one-character
separator, on character lists: `splitChar sep cs` never returns `[]`,
keeps empty fields, and `[[]]` models `"".split(sep) = [""]`. -/
def splitChar (sep : Char) : List Char → List (List Char)
  | [] => [[]]
  | c :: cs =>
    let r := splitChar sep cs
    if c = sep then [] :: r
    else
      match r with
      | [] => [[c]]
      | t :: ts => (c :: t) :: ts

/-- Embedding of JS `String.prototype.trim` on character lists: drop
whitespace from both ends. -/
def trimChars (cs : List Char) : List Char :=
  ((cs.dropWhile Char.isWhitespace).reverse.dropWhile Char.isWhitespace).reverse

/-- Embedding of the JS expression `text.split(" ")[0].trim()` used on
every checksum body: split on the single space character (not on general
whitespace), take field 0, trim it. -/
def firstTokenTrim (text : String) : String :=
  ⟨trimChars ((splitChar ' ' text.data).headD [])⟩

/-- Value of a list of decimal digit characters, most significant first. -/
def digitsVal (ds : List Char) : Nat :=
  ds.foldl (fun a c => a * 10 + (c.toNat - 48)) 0

/-- Longest digit run at the head of the input, or `none` when it is
empty (modelling `NaN`). -/
def readDigits (cs : List Char) : Option Nat :=
  let ds := cs.takeWhile Char.isDigit
  if ds.isEmpty then none else some (digitsVal ds)

/-- Embedding of JS `parseInt(s, 10)` on the character list: skip leading
whitespace, read an optional sign, then the longest run of decimal
digits; `none` models `NaN` (no digits found). -/
def jsParseIntCore (cs : List Char) : Option Int :=
  match cs.dropWhile Char.isWhitespace with
  | [] => none
  | c :: rest =>
    if c = '-' then (readDigits rest).map (fun n => -(n : Int))
    else if c = '+' then (readDigits rest).map (fun n => (n : Int))
    else (readDigits (c :: rest)).map (fun n => (n : Int))

/-- Embedding of JS `parseInt(s, 10)` on strings. -/
def jsParseInt (s : String) : Option Int :=
  jsParseIntCore s.data

/-- Size field of a manifest entry: the manifests encode byte counts
either as a JSON number or as a numeric string (`size: string | number`
in the `PlanetMetadata` interface). -/
inductive SizeVal where
  | num (n : Int) : SizeVal
  | str (s : String) : SizeVal
deriving DecidableEq, Repr

/-- Embedding of the variant-A size coercion
`typeof item.size === 'string' ? parseInt(item.size, 10) : item.size`;
`none` models `NaN`. -/
def normSize : SizeVal → Option Int
  | .num n => some n
  | .str s => jsParseInt s

/-- Embedding of JS `String.prototype.toUpperCase` (basic-latin letters,
which is all the manifests use). -/
def jsToUpperCase (s : String) : String :=
  ⟨s.data.map Char.toUpper⟩

/-- Shape of one entry of the array-shaped manifest (`PlanetMetadata`
interface of variant A). -/
structure PlanetMetadata where
  created : Int
  deprecated : Bool
  deprecation_reason : String
  format : String
  remote_filename : String
  remote_path : String
  remote_version : String
  size : SizeVal
deriving DecidableEq, Repr

/-- Normalized record of variant A (`FileItem` interface of the richer
page); `size` is `Option Int` because `parseInt` can produce `NaN`. -/
structure FileItemA where
  created : Int
  deprecated : Bool
  deprecation_reason : String
  filename : String
  kind : String
  size : Option Int
  sha256 : Option String := none
  url : String
  version : String
deriving DecidableEq, Repr

/-- Embedding of the variant-A `data.map(item => ...)` body: URL built
from the template
`https://download.openplanetdata.com/<remote_path>/v<remote_version>/<remote_filename>`,
kind uppercased, size coerced. -/
def normalizeArrItem (item : PlanetMetadata) : FileItemA :=
  { url := "https://download.openplanetdata.com/" ++ item.remote_path ++ "/v"
      ++ item.remote_version ++ "/" ++ item.remote_filename,
    size := normSize item.size,
    created := item.created,
    kind := jsToUpperCase item.format,
    filename := item.remote_filename,
    deprecated := item.deprecated,
    deprecation_reason := item.deprecation_reason,
    version := item.remote_version }

/-- Variant-A manifest normalization: one record per array element. -/
def normalizeArr (data : List PlanetMetadata) : List FileItemA :=
  data.map normalizeArrItem

/-- Embedding of the per-record checksum enrichment shared by both
variants: fetch `<url>.sha256`; on rejection the sentinel "N/A", on any
response (whatever its status) the trimmed first space-field of the
body. -/
def enrichOneA (fo : FetchOracle) (item : FileItemA) : FileItemA :=
  match fo (item.url ++ ".sha256") with
  | .err => { item with sha256 := some "N/A" }
  | .ok _ body => { item with sha256 := some (firstTokenTrim body) }

/-- Embedding of `Promise.all(items.map(...))`: every record is enriched
independently; the combinator is a plain `map`, so it cannot reject. -/
def enrichA (fo : FetchOracle) (items : List FileItemA) : List FileItemA :=
  items.map (enrichOneA fo)

/-- A concrete record used to instantiate theorems on concrete inputs. -/
def sampleItemA : FileItemA :=
  { created := 1700000000,
    deprecated := false,
    deprecation_reason := "",
    filename := "planet-latest.osm.pbf",
    kind := "PBF",
    size := some 100,
    sha256 := none,
    url := "https://dl.example/osm/planet-latest.osm.pbf",
    version := "1" }

/-- A second concrete record, a sibling of `sampleItemA` in lists. -/
def sampleItemA2 : FileItemA :=
  { created := 1700000001,
    deprecated := false,
    deprecation_reason := "",
    filename := "planet-latest.osm.gol",
    kind := "GOL",
    size := some 200,
    sha256 := none,
    url := "https://dl.example/osm/planet-latest.osm.gol",
    version := "2" }

/-- Shape of one entry of the object-shaped manifest of variant B:
category key → array of `{url, size, created}`. -/
structure EntryB where
  url : String
  size : SizeVal
  created : Int
deriving DecidableEq, Repr

/-- Normalized record of variant B (`FileItem` of `src/app/page.tsx`).
The spread `{...item}` copies `size` unchanged, so it stays a `SizeVal`
even though the TS interface declares it a number. -/
structure FileItemB where
  url : String
  size : SizeVal
  created : Int
  sha256 : Option String := none
  kind : String
  filename : String
deriving DecidableEq, Repr

/-- Embedding of `(item.url as string).split("/").pop() || ""`. -/
def lastSeg (url : String) : String :=
  ⟨(splitChar '/' url.data).getLastD []⟩

/-- Embedding of the variant-B push
`items.push({ ...item, kind, filename })`: the entry is spread as-is (no
size coercion) and the category key and derived filename are added. -/
def normalizeObjEntry (kind : String) (item : EntryB) : FileItemB :=
  { url := item.url,
    size := item.size,
    created := item.created,
    kind := kind,
    filename := lastSeg item.url }

/-- Variant-B manifest normalization: `Object.entries(data).forEach`
pushing one record per array element of every category. -/
def normalizeObj (data : List (String × List EntryB)) : List FileItemB :=
  data.flatMap (fun p => p.2.map (normalizeObjEntry p.1))

/-- Checksum enrichment of one variant-B record (same code as variant
A's, duplicated in the source). -/
def enrichOneB (fo : FetchOracle) (item : FileItemB) : FileItemB :=
  match fo (item.url ++ ".sha256") with
  | .err => { item with sha256 := some "N/A" }
  | .ok _ body => { item with sha256 := some (firstTokenTrim body) }

/-- Checksum enrichment of a variant-B record list. -/
def enrichB (fo : FetchOracle) (items : List FileItemB) : List FileItemB :=
  items.map (enrichOneB fo)

/-- Embedding of `filename.split('.').pop() || ''`: the extension is the
substring after the last dot. -/
def extOf (filename : String) : String :=
  ⟨(splitChar '.' filename.data).getLastD []⟩

/-- Comparator of the variant-A sort `extA.localeCompare(extB)`, as the
lexicographic order on the extension strings. -/
def extLeA (a b : FileItemA) : Prop :=
  extOf a.filename ≤ extOf b.filename

instance : DecidableRel extLeA :=
  fun a b => inferInstanceAs (Decidable (extOf a.filename ≤ extOf b.filename))

instance : IsTotal FileItemA extLeA :=
  ⟨fun a b => le_total (extOf a.filename) (extOf b.filename)⟩

instance : IsTrans FileItemA extLeA :=
  ⟨fun _ _ _ => le_trans⟩

/-- The same comparator on variant-B records (the claim about sortedness
is assessed on both variants, though variant B never sorts). -/
def extLeB (a b : FileItemB) : Prop :=
  extOf a.filename ≤ extOf b.filename

instance : DecidableRel extLeB :=
  fun a b => inferInstanceAs (Decidable (extOf a.filename ≤ extOf b.filename))

/-- Embedding of `withHash.sort((a, b) => extA.localeCompare(extB))`:
`Array.prototype.sort` is stable and sorts by the comparator, which is
exactly a stable sort by the extension key. -/
def sortByExtA (l : List FileItemA) : List FileItemA :=
  List.insertionSort extLeA l

/-- React state of the OSM section of variant A. -/
structure PageStateA where
  files : List FileItemA
  loading : Bool
deriving Repr

/-- Initial variant-A state: `useState([])`, `useState(true)`. -/
def initA : PageStateA := { files := [], loading := true }

/-- React state of the OSM section of variant B. -/
structure PageStateB where
  files : List FileItemB
  loading : Bool
deriving Repr

/-- Initial variant-B state: `useState([])`, `useState(true)`. -/
def initB : PageStateB := { files := [], loading := true }

/-- Outcome of the variant-A manifest fetch: rejected fetch, body that is
not the expected JSON array (`res.json()` or `data.map` throws), or a
parsed manifest. -/
inductive ManifestOutcomeA where
  | err : ManifestOutcomeA
  | malformed : ManifestOutcomeA
  | ok (data : List PlanetMetadata) : ManifestOutcomeA

/-- Outcome of the variant-B manifest fetch. -/
inductive ManifestOutcomeB where
  | err : ManifestOutcomeB
  | malformed : ManifestOutcomeB
  | ok (data : List (String × List EntryB)) : ManifestOutcomeB

/-- Embedding of the variant-A OSM `useEffect` body as a state
transformer: on a thrown manifest fetch or parse the `try` block aborts
before `setFiles` (files keep their previous value) and the `finally`
still clears `loading`; on success the normalized records are enriched,
then sorted, then published. -/
def osmEffectA (mo : ManifestOutcomeA) (fo : FetchOracle) (s : PageStateA) :
    PageStateA :=
  match mo with
  | .err => { s with loading := false }
  | .malformed => { s with loading := false }
  | .ok data =>
    { files := sortByExtA (enrichA fo (normalizeArr data)), loading := false }

/-- Embedding of the variant-B OSM `useEffect` body: as variant A but
with no sort after enrichment. -/
def osmEffectB (mo : ManifestOutcomeB) (fo : FetchOracle) (s : PageStateB) :
    PageStateB :=
  match mo with
  | .err => { s with loading := false }
  | .malformed => { s with loading := false }
  | .ok data =>
    { files := enrichB fo (normalizeObj data), loading := false }

/-- The unit table of `humanFileSize`. -/
def units : List String := ["KiB", "MiB", "GiB", "TiB", "PiB", "EiB"]

/-- Embedding of the `do { bytes /= 1024; ++u } while (Math.abs(bytes)
>= 1024 && u < units.length - 1)` loop of `humanFileSize`.  The guard's
second conjunct `u < 5` bounds the iterations, so the remaining budget
`5 - u` serves as the structural recursion measure: the first argument
carries it, making the guard `u < 5` equivalent to a nonzero budget.
Byte values are modelled as rationals; division by 1024 is exact on JS
doubles in the relevant range, so the control flow agrees. -/
def hfsLoopF : Nat → Rat → Nat → Rat × Nat
  | 0, b, u => (b, u)
  | f + 1, b, u => if 1024 ≤ |b| then hfsLoopF f (b / 1024) (u + 1) else (b, u)

/-- The while-part of the loop from state `(b, u)`: iterate while `|b| ≥
1024` and `u < 5`; entered after the first do-while iteration. -/
def hfsLoop (b : Rat) (u : Nat) : Rat × Nat :=
  hfsLoopF (5 - u) b u

/-- Embedding of JS `toFixed(1)` on a rational: one digit after the
decimal point, rounding to nearest. -/
def toFixed1 (q : Rat) : String :=
  let n : Int := round (q * 10)
  toString (n / 10) ++ "." ++ toString (n % 10).natAbs

/-- Stringification used by the `bytes + " B"` branch. -/
def ratToString (q : Rat) : String := toString q

/-- Embedding of `humanFileSize`: magnitudes below 1024 render as plain
bytes, larger ones run the division loop and use `units[u]`. -/
def humanFileSize (bytes : Rat) : String :=
  if |bytes| < 1024 then ratToString bytes ++ " B"
  else
    let p := hfsLoop (bytes / 1024) 0
    toFixed1 p.1 ++ " " ++ units.getD p.2 ""

/-- Embedding of `truncateHash`: hashes are modelled as character lists
(`none` models `undefined`).  The JS truthiness guard `hash &&
hash.length > 16` is the conjunction of nonemptiness and the length
test; `slice(0, 8)` and `slice(-8)` are `take 8` and `drop (length -
8)`, joined by the one-character ellipsis. -/
def truncateHash (hash : Option (List Char)) : Option (List Char) :=
  match hash with
  | none => none
  | some h =>
    if h ≠ [] ∧ 16 < h.length then
      some (h.take 8 ++ '…' :: h.drop (h.length - 8))
    else some h

/-! Helper lemmas about the embedded string primitives. -/

theorem splitChar_ne_nil (sep : Char) : ∀ cs : List Char, splitChar sep cs ≠ []
  | [] => by simp [splitChar]
  | c :: cs => by
    have ih := splitChar_ne_nil sep cs
    unfold splitChar
    by_cases h : c = sep
    · simp [h]
    · simp only [if_neg h]
      cases splitChar sep cs with
      | nil => simp
      | cons t ts => simp

theorem splitChar_sep_free (sep : Char) :
    ∀ (cs rs : List Char), (∀ c ∈ cs, c ≠ sep) →
      splitChar sep (cs ++ sep :: rs) = cs :: splitChar sep rs
  | [], rs, _ => by simp [splitChar]
  | c :: cs, rs, h => by
    have hc : c ≠ sep := h c (List.mem_cons_self c cs)
    have ih := splitChar_sep_free sep cs rs (fun x hx => h x (List.mem_cons_of_mem c hx))
    rw [List.cons_append]
    simp only [splitChar, if_neg hc, ih]

theorem dropWhile_eq_self_of_forall {p : Char → Bool} :
    ∀ {cs : List Char}, (∀ c ∈ cs, p c = false) → cs.dropWhile p = cs
  | [], _ => rfl
  | c :: cs, h => by
    have hc : p c = false := h c (List.mem_cons_self c cs)
    simp [List.dropWhile, hc]

theorem trimChars_of_forall {cs : List Char}
    (h : ∀ c ∈ cs, c.isWhitespace = false) : trimChars cs = cs := by
  unfold trimChars
  rw [dropWhile_eq_self_of_forall h,
    dropWhile_eq_self_of_forall (fun c hc => h c (List.mem_reverse.mp hc)),
    List.reverse_reverse]

theorem digit_not_ws {c : Char} (h : c.isDigit = true) :
    c.isWhitespace = false := by
  rcases Decidable.eq_or_ne c ' ' with rfl | h1
  · revert h; decide
  rcases Decidable.eq_or_ne c '\t' with rfl | h2
  · revert h; decide
  rcases Decidable.eq_or_ne c '\r' with rfl | h3
  · revert h; decide
  rcases Decidable.eq_or_ne c '\n' with rfl | h4
  · revert h; decide
  simp [Char.isWhitespace, h1, h2, h3, h4]

theorem digit_ne_minus {c : Char} (h : c.isDigit = true) : c ≠ '-' := by
  rintro rfl; revert h; decide

theorem digit_ne_plus {c : Char} (h : c.isDigit = true) : c ≠ '+' := by
  rintro rfl; revert h; decide

/-- Enrichment only sets `sha256`; the sort key survives it. -/
theorem enrichOneA_filename (fo : FetchOracle) (a : FileItemA) :
    (enrichOneA fo a).filename = a.filename := by
  unfold enrichOneA
  cases fo (a.url ++ ".sha256") <;> rfl

/-! Claim theorems. -/

/-- C1 (amended): only a rejected checksum fetch (network error) degrades
to the sentinel "N/A".  When the oracle rejects the companion fetch of a
record, enrichment returns that record with `sha256 = "N/A"`, sibling
records on either side are enriched exactly as they would be alone, and
the enrichment step is a total function producing one record per input,
so it never fails.  A non-200 response or malformed body is not
detected: its body's first space-field is stored as the digest. -/
theorem c1_network_error_isolated (fo : FetchOracle) (item : FileItemA)
    (l l' : List FileItemA)
    (h : fo (item.url ++ ".sha256") = FetchResult.err) :
    enrichA fo (l ++ item :: l')
      = enrichA fo l ++ { item with sha256 := some "N/A" } :: enrichA fo l' ∧
    (enrichA fo (l ++ item :: l')).length = l.length + 1 + l'.length := by
  have h1 : enrichOneA fo item = { item with sha256 := some "N/A" } := by
    unfold enrichOneA
    rw [h]
  constructor
  · simp [enrichA, h1]
  · simp [enrichA]
    omega

/-- Witness for C1: a concrete record between concrete siblings under an
always-rejecting oracle. -/
theorem c1_witness :
    ((fun _ => FetchResult.err) : FetchOracle) (sampleItemA.url ++ ".sha256")
        = FetchResult.err ∧
    (enrichA (fun _ => FetchResult.err) ([sampleItemA2] ++ sampleItemA :: [])
        = enrichA (fun _ => FetchResult.err) [sampleItemA2]
            ++ { sampleItemA with sha256 := some "N/A" }
              :: enrichA (fun _ => FetchResult.err) [] ∧
      (enrichA (fun _ => FetchResult.err)
          ([sampleItemA2] ++ sampleItemA :: [])).length
        = [sampleItemA2].length + 1 + ([] : List FileItemA).length) :=
  ⟨rfl, c1_network_error_isolated (fun _ => FetchResult.err) sampleItemA
    [sampleItemA2] [] rfl⟩

/-- C1 counterexample: a non-200 HTTP response does not reject the
`fetch` promise, so the catch never runs and the error body's first
token — here "404" — is stored instead of the sentinel "N/A". -/
theorem c1_counterexample :
    (enrichOneA (fun _ => FetchResult.ok 404 "404 Not Found") sampleItemA).sha256
        = some "404" ∧ some "404" ≠ some "N/A" :=
  ⟨rfl, by decide⟩

/-- C2 (amended): after enrichment `sha256` is always present — never
`none`/absent — being either the sentinel "N/A" (rejected fetch) or the
trimmed first space-field of whatever body the response carried; that
field is not validated, so it may be empty or not a hex digest. -/
theorem c2_sha256_always_present (fo : FetchOracle) (item : FileItemA) :
    ∃ s : String, (enrichOneA fo item).sha256 = some s ∧
      (s = "N/A" ∨
        ∃ st body, fo (item.url ++ ".sha256") = FetchResult.ok st body ∧
          s = firstTokenTrim body) := by
  unfold enrichOneA
  cases h : fo (item.url ++ ".sha256") with
  | err => exact ⟨"N/A", rfl, Or.inl rfl⟩
  | ok st body => exact ⟨firstTokenTrim body, rfl, Or.inr ⟨st, body, rfl, rfl⟩⟩

/-- C2 counterexample: a 200 response with an empty body stores the empty
string as `sha256`, which the claim rules out. -/
theorem c2_counterexample :
    (enrichOneA (fun _ => FetchResult.ok 200 "") sampleItemA).sha256 = some ""
      ∧ ("" : String) ≠ "N/A" :=
  ⟨rfl, by decide⟩

/-- C4 (amended): the checksum body is split on the single space
character — not on general whitespace — and the first field is trimmed.
For a body `<digest> <rest>` whose digest contains no whitespace, the
stored `sha256` is exactly the digest; a body with leading spaces or a
tab separator is not parsed that way. -/
theorem c4_first_space_field (fo : FetchOracle) (item : FileItemA)
    (st : Nat) (d rest : String)
    (hf : fo (item.url ++ ".sha256") = FetchResult.ok st (d ++ " " ++ rest))
    (hd : ∀ c ∈ d.data, c.isWhitespace = false) :
    (enrichOneA fo item).sha256 = some d := by
  have hsep : ∀ c ∈ d.data, c ≠ ' ' := by
    intro c hc heq
    have hws := hd c hc
    rw [heq] at hws
    exact absurd hws (by decide)
  have hsp : (" " : String).data = [' '] := rfl
  have hdata : (d ++ " " ++ rest).data = d.data ++ ' ' :: rest.data := by
    rw [String.data_append, String.data_append, hsp, List.append_assoc]
    rfl
  have htok : firstTokenTrim (d ++ " " ++ rest) = d := by
    unfold firstTokenTrim
    rw [hdata, splitChar_sep_free ' ' d.data rest.data hsep]
    simp only [List.headD_cons]
    rw [trimChars_of_forall hd]
  simp [enrichOneA, hf, htok]

/-- Witness for C4 on the spec's own scenario: body "deadbeef  a.pbf\n"
enriches to the digest "deadbeef". -/
theorem c4_witness :
    ((fun _ => FetchResult.ok 200 "deadbeef  a.pbf\n") : FetchOracle)
        (sampleItemA.url ++ ".sha256")
      = FetchResult.ok 200 ("deadbeef" ++ " " ++ " a.pbf\n") ∧
    (∀ c ∈ ("deadbeef" : String).data, c.isWhitespace = false) ∧
    (enrichOneA (fun _ => FetchResult.ok 200 "deadbeef  a.pbf\n")
        sampleItemA).sha256 = some "deadbeef" :=
  ⟨by decide, by decide,
    c4_first_space_field (fun _ => FetchResult.ok 200 "deadbeef  a.pbf\n")
      sampleItemA 200 "deadbeef" " a.pbf\n" (by decide) (by decide)⟩

/-- C4 counterexample: a body with one leading space — legal for the
claim's whitespace-separated format, whose first whitespace-delimited
token is still the digest — makes field 0 of the split empty, so the
stored digest is "" rather than "deadbeef". -/
theorem c4_counterexample :
    (enrichOneA (fun _ => FetchResult.ok 200 " deadbeef a.pbf") sampleItemA).sha256
        = some "" ∧ ("" : String) ≠ "deadbeef" :=
  ⟨rfl, by decide⟩

/-- A concrete array-shaped manifest entry with a numeric size. -/
def sampleMetaNum : PlanetMetadata :=
  { created := 1700000000,
    deprecated := false,
    deprecation_reason := "",
    format := "pbf",
    remote_filename := "planet-latest.osm.pbf",
    remote_path := "osm/planet/pbf",
    remote_version := "1",
    size := SizeVal.num 100 }

/-- The same entry with its size encoded as a numeric string. -/
def sampleMetaStr : PlanetMetadata :=
  { sampleMetaNum with size := SizeVal.str "100" }

/-- A concrete object-shaped manifest entry with a string size. -/
def sampleEntryB : EntryB :=
  { url := "https://x/a.pbf", size := SizeVal.str "100", created := 1700000000 }

/-- C3 (amended): variant A coerces sizes — a source number passes
through unchanged, hence is a non-negative integer whenever the source
value is, and a nonempty decimal-digit string parses to a non-negative
integer; negative source values are not corrected.  Variant B performs
no coercion at all: the entry's size is copied as-is, so a
string-encoded size stays a string. -/
theorem c3_size_normalization (item item' : PlanetMetadata) (n : Int)
    (s kind : String) (e : EntryB)
    (hn : item.size = SizeVal.num n) (h0 : 0 ≤ n)
    (hs : item'.size = SizeVal.str s) (hne : s.data ≠ [])
    (hdig : ∀ c ∈ s.data, c.isDigit = true) :
    ((normalizeArrItem item).size = some n ∧ 0 ≤ n) ∧
    (∃ k : Int, (normalizeArrItem item').size = some k ∧ 0 ≤ k) ∧
    (normalizeObjEntry kind e).size = e.size := by
  refine ⟨⟨?_, h0⟩, ?_, rfl⟩
  · simp [normalizeArrItem, normSize, hn]
  · rcases hcs : s.data with _ | ⟨c, rest⟩
    · exact absurd hcs hne
    have hc : c.isDigit = true := by
      apply hdig
      rw [hcs]
      exact List.mem_cons_self c rest
    have hnws : c.isWhitespace = false := digit_not_ws hc
    have hdrop : (c :: rest).dropWhile Char.isWhitespace = c :: rest := by
      simp [List.dropWhile, hnws]
    have hparse : jsParseInt s
        = (readDigits (c :: rest)).map (fun m => (m : Int)) := by
      unfold jsParseInt jsParseIntCore
      rw [hcs, hdrop]
      simp only [if_neg (digit_ne_minus hc), if_neg (digit_ne_plus hc)]
    have hrd : ∃ m : Nat, readDigits (c :: rest) = some m := by
      have htw : (c :: rest).takeWhile Char.isDigit
          = c :: rest.takeWhile Char.isDigit := by
        simp [List.takeWhile, hc]
      unfold readDigits
      rw [htw]
      simp
    rcases hrd with ⟨m, hm⟩
    refine ⟨(m : Int), ?_, Int.natCast_nonneg m⟩
    simp [normalizeArrItem, normSize, hs, hparse, hm]

/-- Witness for C3 on the spec's own scenario values: size 100 as a
number, "100" as a string, and a variant-B entry carrying "100". -/
theorem c3_witness :
    (sampleMetaNum.size = SizeVal.num 100 ∧ (0 : Int) ≤ 100 ∧
      sampleMetaStr.size = SizeVal.str "100" ∧ ("100" : String).data ≠ [] ∧
      (∀ c ∈ ("100" : String).data, c.isDigit = true)) ∧
    (((normalizeArrItem sampleMetaNum).size = some 100 ∧ (0 : Int) ≤ 100) ∧
      (∃ k : Int, (normalizeArrItem sampleMetaStr).size = some k ∧ 0 ≤ k) ∧
      (normalizeObjEntry "pbf" sampleEntryB).size = sampleEntryB.size) :=
  ⟨⟨rfl, by decide, rfl, by decide, by decide⟩,
    c3_size_normalization sampleMetaNum sampleMetaStr 100 "100" "pbf"
      sampleEntryB rfl (by decide) rfl (by decide) (by decide)⟩

/-- C3 counterexample: variant B copies a string-encoded size through
unchanged (the claim wants the integer 100), and variant A passes a
negative source number through (the claim wants a non-negative value). -/
theorem c3_counterexample :
    (normalizeObjEntry "pbf" sampleEntryB).size = SizeVal.str "100" ∧
    SizeVal.str "100" ≠ SizeVal.num 100 ∧
    (normalizeArrItem { sampleMetaNum with size := SizeVal.num (-5) }).size
      = some (-5) ∧ (-5 : Int) < 0 :=
  ⟨rfl, by decide, rfl, by decide⟩

/-- C5: both manifest normalizations preserve counts — the object shape
yields one record per entry of every category, so the total is the sum
of the category sizes, and the array shape yields one record per
element. -/
theorem c5_count_preserved (data : List (String × List EntryB))
    (arr : List PlanetMetadata) :
    (normalizeObj data).length = (data.map (fun p => p.2.length)).sum ∧
    (normalizeArr arr).length = arr.length := by
  constructor
  · simp only [normalizeObj, List.length_flatMap, Function.comp_def, List.length_map]
  · simp [normalizeArr]

/-- C7: when the manifest fetch rejects or its body is malformed, the
effect leaves the (initially empty) record list empty — no partial set
is published — and still moves `loading` from true to false, in both
variants. -/
theorem c7_manifest_failure_empty (fo : FetchOracle) :
    initA.loading = true ∧ initB.loading = true ∧
    (osmEffectA ManifestOutcomeA.err fo initA).files = [] ∧
    (osmEffectA ManifestOutcomeA.err fo initA).loading = false ∧
    (osmEffectA ManifestOutcomeA.malformed fo initA).files = [] ∧
    (osmEffectA ManifestOutcomeA.malformed fo initA).loading = false ∧
    (osmEffectB ManifestOutcomeB.err fo initB).files = [] ∧
    (osmEffectB ManifestOutcomeB.err fo initB).loading = false ∧
    (osmEffectB ManifestOutcomeB.malformed fo initB).files = [] ∧
    (osmEffectB ManifestOutcomeB.malformed fo initB).loading = false :=
  ⟨rfl, rfl, rfl, rfl, rfl, rfl, rfl, rfl, rfl, rfl⟩

/-- The sort-key comparison is untouched by enrichment. -/
theorem extLeA_enrich_iff (fo : FetchOracle) (a b : FileItemA) :
    extLeA a b ↔ extLeA (enrichOneA fo a) (enrichOneA fo b) := by
  unfold extLeA
  rw [enrichOneA_filename, enrichOneA_filename]

/-- C6 (amended): in the variant that sorts (the array-shaped OSM
effect) the published sequence is sorted ascending by extension, but the
sort is applied after enrichment; because enrichment preserves
filenames, sorting commutes with it, so the final order coincides with
the one obtained by sorting before the checksum fetches.  The
object-shaped `page.tsx` variant applies no sort: it publishes the
normalized records in manifest order. -/
theorem c6_sort_placement (data : List PlanetMetadata)
    (dataB : List (String × List EntryB)) (fo : FetchOracle)
    (l : List FileItemA) :
    (osmEffectA (ManifestOutcomeA.ok data) fo initA).files
        = sortByExtA (enrichA fo (normalizeArr data)) ∧
    List.Sorted extLeA (osmEffectA (ManifestOutcomeA.ok data) fo initA).files ∧
    sortByExtA (enrichA fo l) = enrichA fo (sortByExtA l) ∧
    (osmEffectB (ManifestOutcomeB.ok dataB) fo initB).files
        = enrichB fo (normalizeObj dataB) := by
  refine ⟨rfl, ?_, ?_, rfl⟩
  · exact List.sorted_insertionSort extLeA _
  · unfold sortByExtA enrichA
    exact (List.map_insertionSort extLeA extLeA (enrichOneA fo) l
      (fun a _ b _ => extLeA_enrich_iff fo a b)).symm

/-- A second variant-B entry whose extension sorts before the first. -/
def sampleEntryB2 : EntryB :=
  { url := "https://x/a.gol", size := SizeVal.num 200, created := 1700000000 }

/-- C6 counterexample: the `page.tsx` variant never sorts, so a manifest
listing a ".pbf" file before a ".gol" file is published in exactly that
order, which is not ascending by extension. -/
theorem c6_counterexample :
    ¬ List.Sorted extLeB
      (osmEffectB
        (ManifestOutcomeB.ok [("pbf", [sampleEntryB]), ("gol", [sampleEntryB2])])
        (fun _ => FetchResult.err) initB).files := by
  intro h
  have h2 := List.rel_of_sorted_cons h _ (List.mem_cons_self _ _)
  unfold extLeB at h2
  rw [String.le_iff_toList_le] at h2
  revert h2
  decide

/-- C8: the extension sort is idempotent — applied to a sequence that is
already sorted by extension it returns the same sequence, element for
element. -/
theorem c8_sort_idempotent (l : List FileItemA) (h : List.Sorted extLeA l) :
    sortByExtA l = l :=
  h.insertionSort_eq

/-- Witness for C8: a concrete two-record sequence already sorted by
extension ("gol" before "pbf") re-sorts to itself. -/
theorem c8_witness :
    List.Sorted extLeA [sampleItemA2, sampleItemA] ∧
    sortByExtA [sampleItemA2, sampleItemA] = [sampleItemA2, sampleItemA] := by
  have hs : List.Sorted extLeA [sampleItemA2, sampleItemA] := by
    rw [List.sorted_cons]
    refine ⟨?_, List.sorted_singleton _⟩
    intro b hb
    rw [List.mem_singleton] at hb
    subst hb
    unfold extLeA
    rw [String.le_iff_toList_le]
    decide
  exact ⟨hs, c8_sort_idempotent _ hs⟩

/-- The loop counter grows by at most the iteration budget. -/
theorem hfsLoopF_snd_le (f : Nat) :
    ∀ (b : Rat) (u : Nat), (hfsLoopF f b u).2 ≤ u + f := by
  induction f with
  | zero =>
    intro b u
    simp [hfsLoopF]
  | succ f ih =>
    intro b u
    simp only [hfsLoopF]
    split
    · exact le_trans (ih (b / 1024) (u + 1)) (by omega)
    · simp only []
      omega

/-- The loop counter of `hfsLoop`, entered at 0, never passes 5 — the
last index of the unit table. -/
theorem hfsLoop_zero_le (b : Rat) : (hfsLoop b 0).2 ≤ 5 := by
  have h := hfsLoopF_snd_le 5 b 0
  simpa [hfsLoop] using h

/-- C9: `humanFileSize` is safe for every finite byte count — the plain
"B" branch serves magnitudes below 1024, and otherwise the division loop
runs at most 6 iterations (the final counter plus the initial iteration),
leaving the unit index inside the table, so the suffix is one of the
units KiB through EiB. -/
theorem c9_humanFileSize_safe (bytes : Rat) :
    (hfsLoop (bytes / 1024) 0).2 + 1 ≤ 6 ∧
    ((|bytes| < 1024 ∧ humanFileSize bytes = ratToString bytes ++ " B") ∨
      (1024 ≤ |bytes| ∧
        humanFileSize bytes
          = toFixed1 (hfsLoop (bytes / 1024) 0).1 ++ " "
              ++ units.getD (hfsLoop (bytes / 1024) 0).2 "" ∧
        units.getD (hfsLoop (bytes / 1024) 0).2 "" ∈ units)) := by
  have hb : (hfsLoop (bytes / 1024) 0).2 ≤ 5 := hfsLoop_zero_le (bytes / 1024)
  refine ⟨by omega, ?_⟩
  by_cases h : |bytes| < 1024
  · exact Or.inl ⟨h, by rw [humanFileSize, if_pos h]⟩
  · refine Or.inr ⟨le_of_not_lt h, ?_, ?_⟩
    · rw [humanFileSize, if_neg h]
    · set u := (hfsLoop (bytes / 1024) 0).2 with hu
      interval_cases u <;> decide

/-- C10: `truncateHash` is the identity on `undefined` and on every hash
of at most 16 characters; a hash longer than 16 characters maps to the
17-character string made of its first 8 characters, one ellipsis
character, and its last 8 characters. -/
theorem c10_truncateHash_spec :
    truncateHash none = none ∧
    (∀ h : List Char, h.length ≤ 16 → truncateHash (some h) = some h) ∧
    (∀ h : List Char, 16 < h.length →
      truncateHash (some h)
          = some (h.take 8 ++ '…' :: h.drop (h.length - 8)) ∧
      (h.take 8 ++ '…' :: h.drop (h.length - 8)).length = 17) := by
  refine ⟨rfl, ?_, ?_⟩
  · intro h hlen
    simp only [truncateHash]
    rw [if_neg]
    intro hc
    exact absurd hc.2 (by omega)
  · intro h hlen
    have hne : h ≠ [] := by
      intro he
      rw [he] at hlen
      simp at hlen
    refine ⟨?_, ?_⟩
    · simp only [truncateHash]
      rw [if_pos (And.intro hne hlen)]
    · rw [List.length_append, List.length_cons, List.length_take,
        List.length_drop]
      omega

/-- Witness for C10: a 16-character hash is returned untouched, and a
17-character hash is shortened to first 8, ellipsis, last 8. -/
theorem c10_witness :
    truncateHash (some ("0123456789abcdef" : String).data)
        = some ("0123456789abcdef" : String).data ∧
    (truncateHash (some ("0123456789abcdef0" : String).data)
        = some (("0123456789abcdef0" : String).data.take 8 ++ '…' ::
            ("0123456789abcdef0" : String).data.drop
              (("0123456789abcdef0" : String).data.length - 8)) ∧
      (("0123456789abcdef0" : String).data.take 8 ++ '…' ::
          ("0123456789abcdef0" : String).data.drop
            (("0123456789abcdef0" : String).data.length - 8)).length = 17) :=
  ⟨c10_truncateHash_spec.2.1 ("0123456789abcdef" : String).data (by decide),
    c10_truncateHash_spec.2.2 ("0123456789abcdef0" : String).data (by decide)⟩

end OpenPlanetData
